import Mathlib

/-!
Verification of the gsmdepot3roster roster-management application.

JavaScript strings are modelled as lists of characters (`Str`); absent
values (`null` / `undefined`) are modelled with `Option`.  Each definition
below transcribes one function of the source; the persistent store, an
external collaborator, is modelled from the specification where noted.
-/

namespace Roster

/-- A JavaScript string, modelled as its character sequence. -/
abbrev Str := List Char

/-- Character data of a Lean string literal, used to write `Str` constants. -/
def chars (s : String) : Str := s.data

/-- JS `String.prototype.toLowerCase` restricted to the ASCII range used here. -/
def lowerStr (s : Str) : Str := s.map Char.toLower

/-- JS `String.prototype.trim`: strip leading and trailing whitespace. -/
def jsTrim (s : Str) : Str :=
  ((s.dropWhile Char.isWhitespace).reverse.dropWhile Char.isWhitespace).reverse

/-- JS `s.startsWith(p)`. -/
def strStartsWith (s p : Str) : Bool := decide (s.take p.length = p)

/-- JS `s.includes(sub)`: `sub` occurs contiguously somewhere in `s`. -/
def strIncludes (s sub : Str) : Bool :=
  (List.range (s.length + 1)).any (fun i => strStartsWith (s.drop i) sub)

/-- Length of the run of digit characters at the end of a string. -/
def trailingDigits (s : Str) : Nat :=
  (s.reverse.takeWhile (fun c => c.isDigit)).length

/-! ### Phone utilities, from `src/src/components/RosterFilters.tsx` (phone utils) -/

/-- Predicate kept by the cleaning regex `/[^\d+]/g`: digits and plus signs. -/
def phonePred (c : Char) : Bool := c.isDigit || c == '+'

/-- Transcribes `phone.replace(/[^\d+]/g, '')`: remove all characters except digits and `+`. -/
def cleanPhone (p : Str) : Str := p.filter phonePred

/-- Function `normalizePhoneToE164` from the source: classify the cleaned input by
prefix and length against the Philippine numbering plan, otherwise enforce
a leading `+`.  `none` models the `null` result for absent or empty input. -/
def normalizePhoneToE164 (phone : Option Str) : Option Str :=
  match phone with
  | none => none
  | some p =>
    if p = [] then none
    else
      let cleaned := cleanPhone p
      if strStartsWith cleaned (chars "+63") then some cleaned
      else if strStartsWith cleaned (chars "63") && decide (12 ≤ cleaned.length) then
        some ('+' :: cleaned)
      else if strStartsWith cleaned (chars "0") && decide (cleaned.length = 11) then
        some (chars "+63" ++ cleaned.drop 1)
      else if decide (cleaned.length = 10) && strStartsWith cleaned (chars "9") then
        some (chars "+63" ++ cleaned)
      else if strStartsWith cleaned (chars "+") then some cleaned
      else some ('+' :: cleaned)

/-- Function `maskPhoneNumber` from the source: fixed masked pattern for 13-character
`+63` numbers, generic prefix/stars/suffix masking otherwise. -/
def maskPhoneNumber (phone : Option Str) : Str :=
  match phone with
  | none => chars "-"
  | some p =>
    if p = [] then chars "-"
    else
      match normalizePhoneToE164 (some p) with
      | none => p
      | some e164 =>
        if strStartsWith e164 (chars "+63") && decide (e164.length = 13) then
          chars "+63 9** *** " ++ e164.drop (e164.length - 4)
        else if decide (7 < e164.length) then
          e164.take 3 ++ List.replicate (e164.length - 7) '*' ++ e164.drop (e164.length - 4)
        else e164

/-! ### Import pipeline, from `src/src/pages/Admin.tsx` -/

/-- Synonym table of `normalizeHeader`, in source order (the table of the
source has no duplicate keys, so first-match lookup coincides with the
JS object lookup). -/
def headerMappings : List (Str × Str) :=
  [ (chars "plate", chars "plate")
  , (chars "plate #", chars "plate")
  , (chars "plate#", chars "plate")
  , (chars "id", chars "employee_id")
  , (chars "employee id", chars "employee_id")
  , (chars "employee_id", chars "employee_id")
  , (chars "name", chars "name")
  , (chars "driver name", chars "name")
  , (chars "driver_name", chars "name")
  , (chars "phone", chars "phone")
  , (chars "phone #", chars "phone")
  , (chars "phone#", chars "phone")
  , (chars "phone number", chars "phone")
  , (chars "telegram", chars "telegram_phone")
  , (chars "telegram phone", chars "telegram_phone")
  , (chars "telegram_phone", chars "telegram_phone")
  , (chars "captain", chars "captain")
  , (chars "supervisor", chars "captain")
  , (chars "schedule", chars "schedule")
  , (chars "schedule ", chars "schedule")
  , (chars "rd", chars "rest_day")
  , (chars "rd (rest day)", chars "rest_day")
  , (chars "rest day", chars "rest_day")
  , (chars "rest_day", chars "rest_day")
  , (chars "restday", chars "rest_day")
  , (chars "status", chars "status")
  ]

/-- Function `normalizeHeader`: trim, lowercase, then look the result up in the
synonym table, passing unknown headers through unchanged. -/
def normalizeHeader (header : Str) : Str :=
  let normalized := lowerStr (jsTrim header)
  (headerMappings.lookup normalized).getD normalized

/-- One raw spreadsheet row as produced by the tabular file reader: original
header keys paired with already-stringified cell values (`none` models a
`null`/`undefined` cell). -/
abbrev RawRow := List (Str × Option Str)

/-- A parsed draft record (`DriverRow` in the source). `status` is always a
string because the parser defaults it to `"active"`. -/
structure DriverRow where
  plate : Str
  employee_id : Str
  name : Str
  captain : Str
  phone : Option Str
  telegram_phone : Option Str
  schedule : Option Str
  rest_day : Option Str
  status : Str
deriving DecidableEq, Repr

/-- Value of the normalized-key map at `key`: the source writes
`normalizedRow[normalizeHeader(k)] = coerce(v)` for every entry in order,
so the last entry whose normalized key equals `key` wins; the coercion
turns a `null`/`undefined` cell into the empty string and trims the rest. -/
def rawLookup (row : RawRow) (key : Str) : Option Str :=
  (row.filterMap
    (fun kv => if normalizeHeader kv.1 == key then some ((kv.2.map jsTrim).getD []) else none)
  ).getLast?

/-- JS `v || dflt` for a possibly-absent string: the empty string is falsy. -/
def jsOrStr (v : Option Str) (dflt : Str) : Str :=
  match v with
  | none => dflt
  | some s => if s = [] then dflt else s

/-- JS `v || undefined` for a possibly-absent string. -/
def jsOrOpt (v : Option Str) : Option Str :=
  match v with
  | none => none
  | some s => if s = [] then none else some s

/-- The record constructor of `parseFile`'s row mapper. -/
def toDriverRow (row : RawRow) : DriverRow :=
  { plate := jsOrStr (rawLookup row (chars "plate")) []
  , employee_id := jsOrStr (rawLookup row (chars "employee_id")) []
  , name := jsOrStr (rawLookup row (chars "name")) []
  , captain := jsOrStr (rawLookup row (chars "captain")) []
  , phone := jsOrOpt (rawLookup row (chars "phone"))
  , telegram_phone := jsOrOpt (rawLookup row (chars "telegram_phone"))
  , schedule := jsOrOpt (rawLookup row (chars "schedule"))
  , rest_day := jsOrOpt (rawLookup row (chars "rest_day"))
  , status := jsOrStr (rawLookup row (chars "status")) (chars "active") }

/-- The four-field validity check of `parseFile` (JS string truthiness:
a string is truthy exactly when it is non-empty). -/
def validDriver (d : DriverRow) : Bool :=
  decide (d.plate ≠ []) && decide (d.employee_id ≠ []) &&
  decide (d.name ≠ []) && decide (d.captain ≠ [])

/-- The full draft set produced by `parseFile`'s row mapper, before the
validity filter (`drivers` in the source). -/
def parseRows (rows : List RawRow) : List DriverRow := rows.map toDriverRow

/-- What `parseFile` resolves with: the valid subset only (`validDrivers`). -/
def parseFile (rows : List RawRow) : List DriverRow :=
  (parseRows rows).filter validDriver

/-- The preview computed by `handleFileSelect`: `data.slice(0, 20)` of the
value resolved by `parseFile`. -/
def previewData (rows : List RawRow) : List DriverRow := (parseFile rows).take 20

/-! ### Reconciliation, from `handleUpload` in `src/src/pages/Admin.tsx`.

The persistent store is an external collaborator (Supabase); its row
semantics are modelled from the specification (sections 4.4 and 6). -/

/-- A record held by the store: the business fields plus the server-assigned
timestamps (modelled as abstract ticks; the opaque `id` plays no role in
any claim and is omitted). -/
structure StoredRecord where
  row : DriverRow
  createdAt : Nat
  updatedAt : Nat
deriving DecidableEq, Repr

/-- The persistent roster store's record list. -/
abbrev Store := List StoredRecord

/-- Does the store hold a record with this plate? -/
def memPlate (s : Store) (plate : Str) : Bool :=
  s.any (fun r => r.row.plate == plate)

/-- Modelled from the spec: one step of the store's plate-keyed upsert
(section 4.4) — if a record with the same `plate` exists, overwrite every
field except `id`/`createdAt` and refresh `updatedAt`; otherwise insert a
new record.  `t` is the server timestamp of the call. -/
def upsertOne (t : Nat) (s : Store) (d : DriverRow) : Store :=
  if memPlate s d.plate then
    s.map (fun r => if r.row.plate == d.plate then
      { row := d, createdAt := r.createdAt, updatedAt := t } else r)
  else s ++ [{ row := d, createdAt := t, updatedAt := t }]

/-- Modelled from the spec: the store's batch upsert with conflict key
`plate` processes the batch records in order. -/
def upsertBatch (t : Nat) (s : Store) (batch : List DriverRow) : Store :=
  batch.foldl (upsertOne t) s

/-- Modelled from the spec: the delete-all call of `replace` mode clears
the store (the sentinel-id `.neq` filter of the source matches every
store-generated id). -/
def deleteAll (_s : Store) : Store := []

/-- The upload mode selected in the admin page. -/
inductive UploadMode where
  | upsert
  | replace
deriving DecidableEq, Repr

/-- One `roster_uploads` audit row. -/
structure AuditRow where
  uploaded_by : Option Str
  file_name : Str
  upload_type : UploadMode
  records_count : Nat
deriving DecidableEq, Repr

/-- The mutable state touched by an upload: the roster store and the
append-only audit log. -/
structure UploadState where
  roster : Store
  audits : List AuditRow
deriving DecidableEq, Repr

/-- Outcome reported to the caller of `handleUpload`. -/
inductive UploadOutcome where
  | noValidRecords
  | applied (count : Nat)
deriving DecidableEq, Repr

/-- Function `handleUpload`: parse the file, reject a batch with no valid records
before touching the store, otherwise clear the store first in `replace`
mode, upsert the batch by plate, and append one audit row. -/
def handleUpload (t : Nat) (mode : UploadMode) (fileRows : List RawRow)
    (fileName : Str) (userId : Option Str) (st : UploadState) :
    UploadOutcome × UploadState :=
  let drivers := parseFile fileRows
  if drivers.length = 0 then (UploadOutcome.noValidRecords, st)
  else
    let base := match mode with
      | UploadMode.replace => deleteAll st.roster
      | UploadMode.upsert => st.roster
    (UploadOutcome.applied drivers.length,
      { roster := upsertBatch t base drivers
      , audits := st.audits ++
          [{ uploaded_by := userId, file_name := fileName
           , upload_type := mode, records_count := drivers.length }] })

/-- Effect of one upsert step on a single stored record (the map function of
`upsertOne`'s overwrite branch, factored out for the proofs). -/
def stepRecord (t : Nat) (r : StoredRecord) (d : DriverRow) : StoredRecord :=
  if r.row.plate == d.plate then { row := d, createdAt := r.createdAt, updatedAt := t } else r

/-- The last batch record carrying the given plate, if any. -/
def lastMatch (batch : List DriverRow) (plate : Str) : Option DriverRow :=
  match batch with
  | [] => none
  | d :: rest =>
    match lastMatch rest plate with
    | some x => some x
    | none => if plate == d.plate then some d else none

/-! ### Filter/search engine, from `filteredDrivers` in the roster pages
(`src/unnamed/part_002` and `src/unnamed/part_007`, identical logic). -/

/-- A roster record as served by the store (`Driver` interface). -/
structure Driver where
  plate : Str
  employee_id : Str
  name : Str
  captain : Str
  phone : Option Str
  telegram_phone : Option Str
  schedule : Option Str
  rest_day : Option Str
  status : Option Str
deriving DecidableEq, Repr

/-- The four field filters of the UI filter state. -/
structure Filters where
  captain : Str
  schedule : Str
  restDay : Str
  status : Str
deriving DecidableEq, Repr

/-- Search test for an optional field: `field?.toLowerCase().includes(query)`
is falsy when the field is absent and never throws. -/
def optIncludes (query : Str) (field : Option Str) : Bool :=
  match field with
  | none => false
  | some s => strIncludes (lowerStr s) query

/-- The nine-field free-text search disjunction, in source order; `query`
is the already-lowercased search query. -/
def searchMatches (query : Str) (d : Driver) : Bool :=
  strIncludes (lowerStr d.plate) query ||
  strIncludes (lowerStr d.employee_id) query ||
  strIncludes (lowerStr d.name) query ||
  optIncludes query d.phone ||
  optIncludes query d.telegram_phone ||
  strIncludes (lowerStr d.captain) query ||
  optIncludes query d.schedule ||
  optIncludes query d.rest_day ||
  optIncludes query d.status

/-- The per-record predicate of `filteredDrivers`, transcribing the chain of
early `return false` checks followed by the search block. -/
def keepDriver (filters : Filters) (searchQuery : Str) (d : Driver) : Bool :=
  if decide (filters.captain ≠ []) && decide (filters.captain ≠ chars "all") &&
      decide (d.captain ≠ filters.captain) then false
  else if decide (filters.schedule ≠ []) && decide (filters.schedule ≠ chars "all") &&
      decide (d.schedule ≠ some filters.schedule) then false
  else if decide (filters.restDay ≠ []) && decide (filters.restDay ≠ chars "all") &&
      decide (d.rest_day ≠ some filters.restDay) then false
  else if decide (filters.status ≠ []) && decide (filters.status ≠ chars "all") &&
      decide (d.status ≠ some filters.status) then false
  else if decide (searchQuery ≠ []) then searchMatches (lowerStr searchQuery) d
  else true

/-- Function `filteredDrivers`: keep, in input order, exactly the records passing
the filter-and-search predicate. -/
def filteredDrivers (drivers : List Driver) (filters : Filters) (searchQuery : Str) :
    List Driver :=
  drivers.filter (keepDriver filters searchQuery)

/-- Does this filter field carry a concrete (non-"all", non-empty)
constraint? The UI only ever supplies "all" or an actual option value. -/
def hasConstraint (v : Str) : Bool := decide (v ≠ []) && decide (v ≠ chars "all")

/-- The claim's view predicate, written from the specification's words: every
concretely constrained filter field must match exactly, and a non-empty query
must be a lowercased substring of one of the nine searched fields, absent
fields never matching. -/
def specKeep (filters : Filters) (searchQuery : Str) (d : Driver) : Bool :=
  (!hasConstraint filters.captain || decide (d.captain = filters.captain)) &&
  (!hasConstraint filters.schedule || decide (d.schedule = some filters.schedule)) &&
  (!hasConstraint filters.restDay || decide (d.rest_day = some filters.restDay)) &&
  (!hasConstraint filters.status || decide (d.status = some filters.status)) &&
  (decide (searchQuery = []) || searchMatches (lowerStr searchQuery) d)

/-! ### Contact-card export batching, from `src/src/components/RosterShareActions.tsx` -/

/-- Fixed batch size of the contact-card export. -/
def VCF_BATCH_SIZE : Nat := 100

/-- JS string truthiness of the `phone` field used by
`driversToUse.filter(d => d.phone)`. -/
def hasPhone (d : Driver) : Bool :=
  match d.phone with
  | none => false
  | some s => decide (s ≠ [])

/-- Value `driversWithPhone`: the drivers that carry a (truthy) phone value. -/
def driversWithPhone (drivers : List Driver) : List Driver := drivers.filter hasPhone

/-- Loop body of `getVcfBatches`: starting from index `i`, emit
`(start, end)` index pairs stepping by `VCF_BATCH_SIZE` until `total`. -/
def vcfBatchesGo (total i : Nat) : List (Nat × Nat) :=
  if i < total then (i, min (i + VCF_BATCH_SIZE) total) :: vcfBatchesGo total (i + VCF_BATCH_SIZE)
  else []
termination_by total - i
decreasing_by simp [VCF_BATCH_SIZE]; omega

/-- Function `getVcfBatches`: the batch index ranges for `total` drivers-with-phone. -/
def vcfBatches (total : Nat) : List (Nat × Nat) := vcfBatchesGo total 0

/-- The drivers of one batch artifact:
`driversWithPhone.slice(startIndex, endIndex)` in `downloadVcfBatch`. -/
def vcfSlice (ps : List Driver) (b : Nat × Nat) : List Driver :=
  (ps.drop b.1).take (b.2 - b.1)

/-! ### Column reordering, from `moveColumn` in `src/src/hooks/useColumnOrder.ts` -/

/-- One display column of the roster table. -/
structure ColumnDef where
  key : Str
  label : Str
  sortable : Bool
deriving DecidableEq, Repr

/-- Function `moveColumn`: `splice(fromIndex, 1)` removes the dragged column, then
`splice(toIndex, 0, removed)` reinserts it, modelled at in-range indices
(the drag-and-drop caller only produces indices of existing columns). -/
def moveColumn (cols : List ColumnDef) (fromIndex toIndex : Nat) : List ColumnDef :=
  match cols.get? fromIndex with
  | none => cols
  | some removed => (cols.eraseIdx fromIndex).insertIdx toIndex removed

/-! ## Helper lemmas -/

theorem perm_insertIdx {α : Type _} (a : α) :
    ∀ (l : List α) (n : Nat), n ≤ l.length → (l.insertIdx n a).Perm (a :: l) := by
  intro l
  induction l with
  | nil =>
    intro n hn
    have : n = 0 := by simpa using hn
    subst this
    simp
  | cons h t ih =>
    intro n hn
    cases n with
    | zero => simp
    | succ m =>
      rw [List.insertIdx_succ_cons]
      exact (List.Perm.cons h (ih m (by simpa using hn))).trans (List.Perm.swap a h t)

theorem perm_cons_eraseIdx {α : Type _} :
    ∀ (l : List α) (n : Nat) (h : n < l.length), l.Perm (l.get ⟨n, h⟩ :: l.eraseIdx n) := by
  intro l
  induction l with
  | nil => intro n h; simp at h
  | cons a t ih =>
    intro n h
    cases n with
    | zero => simp [List.eraseIdx]
    | succ m =>
      have hm : m < t.length := by simpa using h
      have step := List.Perm.cons a (ih m hm)
      simpa [List.eraseIdx] using step.trans (List.Perm.swap (t.get ⟨m, hm⟩) a (t.eraseIdx m))

theorem mem_cleanPhone {p : Str} {c : Char} (h : c ∈ cleanPhone p) : phonePred c = true :=
  (List.mem_filter.mp h).2

theorem cleanPhone_eq_self {s : Str} (h : ∀ c ∈ s, phonePred c = true) : cleanPhone s = s :=
  List.filter_eq_self.mpr h

theorem take_one_cons {s : Str} {c : Char} (h : s.take 1 = [c]) : ∃ t, s = c :: t := by
  cases s with
  | nil => simp at h
  | cons a t =>
    refine ⟨t, ?_⟩
    simp only [List.take_succ_cons, List.take_zero] at h
    cases h
    rfl

/-- Every result of the normalizer on a non-empty input is a non-null string
that starts with a plus sign and contains only digits and plus signs. -/
theorem normalize_some {p : Str} (hp : p ≠ []) :
    ∃ y, normalizePhoneToE164 (some p) = some y ∧
      y.take 1 = ['+'] ∧ (∀ c ∈ y, phonePred c = true) := by
  have hmem : ∀ c ∈ cleanPhone p, phonePred c = true := fun c hc => mem_cleanPhone hc
  simp only [normalizePhoneToE164]
  rw [if_neg hp]
  by_cases h1 : strStartsWith (cleanPhone p) (chars "+63") = true
  · refine ⟨cleanPhone p, by simp [h1], ?_, hmem⟩
    have h3 : (cleanPhone p).take 3 = ['+', '6', '3'] := by
      have := of_decide_eq_true h1
      simpa [strStartsWith, chars] using this
    have : (cleanPhone p).take 1 = ((cleanPhone p).take 3).take 1 := by
      rw [List.take_take]
      norm_num
    rw [this, h3]
    rfl
  · by_cases h2 : (strStartsWith (cleanPhone p) (chars "63") &&
        decide (12 ≤ (cleanPhone p).length)) = true
    · refine ⟨'+' :: cleanPhone p, by simp [h1, h2], rfl, ?_⟩
      intro c hc
      rcases List.mem_cons.mp hc with hc | hc
      · subst hc; rfl
      · exact hmem c hc
    · by_cases h3 : (strStartsWith (cleanPhone p) (chars "0") &&
          decide ((cleanPhone p).length = 11)) = true
      · refine ⟨chars "+63" ++ (cleanPhone p).drop 1, by simp [h1, h2, h3], rfl, ?_⟩
        intro c hc
        rcases List.mem_append.mp hc with hc | hc
        · have : c = '+' ∨ c = '6' ∨ c = '3' := by simpa [chars] using hc
          rcases this with rfl | rfl | rfl <;> rfl
        · exact hmem c (List.drop_subset 1 _ hc)
      · by_cases h4 : (decide ((cleanPhone p).length = 10) &&
            strStartsWith (cleanPhone p) (chars "9")) = true
        · refine ⟨chars "+63" ++ cleanPhone p, by simp [h1, h2, h3, h4], rfl, ?_⟩
          intro c hc
          rcases List.mem_append.mp hc with hc | hc
          · have : c = '+' ∨ c = '6' ∨ c = '3' := by simpa [chars] using hc
            rcases this with rfl | rfl | rfl <;> rfl
          · exact hmem c hc
        · by_cases h5 : strStartsWith (cleanPhone p) (chars "+") = true
          · refine ⟨cleanPhone p, by simp [h1, h2, h3, h4, h5], ?_, hmem⟩
            have := of_decide_eq_true h5
            simpa [strStartsWith, chars] using this
          · refine ⟨'+' :: cleanPhone p, by simp [h1, h2, h3, h4, h5], rfl, ?_⟩
            intro c hc
            rcases List.mem_cons.mp hc with hc | hc
            · subst hc; rfl
            · exact hmem c hc

/-- The normalizer fixes any value that already consists only of digits and
plus signs and starts with a plus sign — in particular all of its own
outputs. -/
theorem normalize_clean_plus {y : Str} (hy : ∀ c ∈ y, phonePred c = true)
    (h1 : y.take 1 = ['+']) : normalizePhoneToE164 (some y) = some y := by
  obtain ⟨t, rfl⟩ := take_one_cons h1
  have hclean : cleanPhone ('+' :: t) = '+' :: t := cleanPhone_eq_self hy
  simp only [normalizePhoneToE164]
  rw [if_neg (List.cons_ne_nil _ _)]
  simp only [hclean]
  by_cases hb : strStartsWith ('+' :: t) (chars "+63") = true
  · simp [hb]
  · have h2 : strStartsWith ('+' :: t) (chars "63") = false := by
      simp [strStartsWith, chars, List.take_succ_cons]
    have h3 : strStartsWith ('+' :: t) (chars "0") = false := by
      simp [strStartsWith, chars, List.take_succ_cons]
    have h4 : strStartsWith ('+' :: t) (chars "9") = false := by
      simp [strStartsWith, chars, List.take_succ_cons]
    have h5 : strStartsWith ('+' :: t) (chars "+") = true := by
      simp [strStartsWith, chars, List.take_succ_cons]
    simp [hb, h2, h3, h4, h5]

theorem stepRecord_plate (t : Nat) (r : StoredRecord) (d : DriverRow) :
    (stepRecord t r d).row.plate = r.row.plate := by
  unfold stepRecord
  by_cases h : (r.row.plate == d.plate) = true
  · have : r.row.plate = d.plate := by simpa using h
    simp [h, this]
  · simp [h]

theorem memPlate_map_step (t : Nat) (s : Store) (d : DriverRow) (plate : Str) :
    memPlate (s.map (fun r => stepRecord t r d)) plate = memPlate s plate := by
  unfold memPlate
  rw [List.any_map]
  congr 1
  funext r
  simp [Function.comp, stepRecord_plate]

theorem lastMatch_cons (d : DriverRow) (rest : List DriverRow) (plate : Str) :
    lastMatch (d :: rest) plate =
      match lastMatch rest plate with
      | some x => some x
      | none => if plate == d.plate then some d else none := rfl

theorem upsertOne_of_memPlate {t : Nat} {s : Store} {d : DriverRow}
    (h : memPlate s d.plate = true) :
    upsertOne t s d = s.map (fun r => stepRecord t r d) := by
  unfold upsertOne stepRecord
  simp [h]

theorem memPlate_upsertOne (t : Nat) (s : Store) (d : DriverRow) (plate : Str) :
    memPlate (upsertOne t s d) plate = (memPlate s plate || (d.plate == plate)) := by
  by_cases hd : memPlate s d.plate = true
  · rw [upsertOne_of_memPlate hd, memPlate_map_step]
    by_cases hp : (d.plate == plate) = true
    · have : d.plate = plate := by simpa using hp
      subst this
      simp [hd]
    · simp [hp]
  · unfold upsertOne
    rw [if_neg hd]
    unfold memPlate
    rw [List.any_append]
    simp

theorem memPlate_upsertBatch (t : Nat) :
    ∀ (batch : List DriverRow) (s : Store) (plate : Str),
      memPlate (upsertBatch t s batch) plate
        = (memPlate s plate || batch.any (fun d => d.plate == plate)) := by
  intro batch
  induction batch with
  | nil => intro s plate; simp [upsertBatch]
  | cons d rest ih =>
    intro s plate
    have h1 : upsertBatch t s (d :: rest) = upsertBatch t (upsertOne t s d) rest := by
      simp [upsertBatch]
    rw [h1, ih, memPlate_upsertOne]
    simp [Bool.or_assoc]

theorem upsertBatch_saturated (t : Nat) :
    ∀ (batch : List DriverRow) (s : Store),
      (∀ d ∈ batch, memPlate s d.plate = true) →
      upsertBatch t s batch = s.map (fun r => batch.foldl (stepRecord t) r) := by
  intro batch
  induction batch with
  | nil =>
    intro s _
    simp [upsertBatch]
  | cons d rest ih =>
    intro s hsat
    have hd : memPlate s d.plate = true := hsat d (List.mem_cons_self d rest)
    have h1 : upsertBatch t s (d :: rest) = upsertBatch t (upsertOne t s d) rest := by
      simp [upsertBatch]
    rw [h1, upsertOne_of_memPlate hd]
    have hsat2 : ∀ x ∈ rest, memPlate (s.map (fun r => stepRecord t r d)) x.plate = true := by
      intro x hx
      rw [memPlate_map_step]
      exact hsat x (List.mem_cons_of_mem d hx)
    rw [ih _ hsat2, List.map_map]
    simp [Function.comp, List.foldl_cons]

theorem foldl_stepRecord (t : Nat) :
    ∀ (batch : List DriverRow) (r : StoredRecord),
      batch.foldl (stepRecord t) r =
        match lastMatch batch r.row.plate with
        | none => r
        | some d => { row := d, createdAt := r.createdAt, updatedAt := t } := by
  intro batch
  induction batch with
  | nil => intro r; simp [lastMatch]
  | cons d rest ih =>
    intro r
    rw [List.foldl_cons]
    by_cases h : (r.row.plate == d.plate) = true
    · have hpl : r.row.plate = d.plate := by simpa using h
      have hstep : stepRecord t r d = { row := d, createdAt := r.createdAt, updatedAt := t } := by
        simp [stepRecord, h]
      rw [hstep, ih, lastMatch_cons, hpl]
      cases hlm : lastMatch rest d.plate with
      | none => simp
      | some x => simp
    · have hstep : stepRecord t r d = r := by
        simp [stepRecord, h]
      rw [hstep, ih, lastMatch_cons]
      cases hlm : lastMatch rest r.row.plate with
      | none => simp [h]
      | some x => simp

theorem lastMatch_none_iff :
    ∀ (batch : List DriverRow) (plate : Str),
      lastMatch batch plate = none ↔ batch.any (fun d => plate == d.plate) = false := by
  intro batch
  induction batch with
  | nil => intro plate; simp [lastMatch]
  | cons d rest ih =>
    intro plate
    rw [lastMatch_cons]
    cases hlm : lastMatch rest plate with
    | some x =>
      simp only [List.any_cons, Bool.or_eq_false_iff]
      constructor
      · intro hcontra; cases hcontra
      · intro h
        rw [(ih plate).mpr h.2] at hlm
        cases hlm
    | none =>
      have hrest : rest.any (fun d => plate == d.plate) = false := (ih plate).mp hlm
      by_cases hpd : (plate == d.plate) = true
      · simp [hpd, hrest]
      · simp only [Bool.not_eq_true] at hpd
        simp [hpd, hrest]

theorem row_of_upsertBatch (t : Nat) :
    ∀ (batch : List DriverRow) (s : Store) (r : StoredRecord),
      r ∈ upsertBatch t s batch →
      (match lastMatch batch r.row.plate with
       | none => r ∈ s
       | some d => r.row = d) := by
  intro batch
  induction batch with
  | nil =>
    intro s r hr
    simpa [upsertBatch, lastMatch] using hr
  | cons d rest ih =>
    intro s r hr
    have h1 : upsertBatch t s (d :: rest) = upsertBatch t (upsertOne t s d) rest := by
      simp [upsertBatch]
    rw [h1] at hr
    have hrec := ih (upsertOne t s d) r hr
    rw [lastMatch_cons]
    cases hlm : lastMatch rest r.row.plate with
    | some x =>
      rw [hlm] at hrec
      simpa using hrec
    | none =>
      rw [hlm] at hrec
      by_cases hπ : (r.row.plate == d.plate) = true
      · simp only [hπ, if_true]
        by_cases hd : memPlate s d.plate = true
        · rw [upsertOne_of_memPlate hd] at hrec
          obtain ⟨r0, hr0, hstep⟩ := List.mem_map.mp hrec
          by_cases h0 : (r0.row.plate == d.plate) = true
          · rw [← hstep]
            simp [stepRecord, h0]
          · exfalso
            have : r = r0 := by
              rw [← hstep]
              simp [stepRecord, h0]
            subst this
            exact h0 hπ
        · unfold upsertOne at hrec
          rw [if_neg hd] at hrec
          rcases List.mem_append.mp hrec with hmem | hmem
          · exfalso
            apply hd
            exact List.any_eq_true.mpr ⟨r, hmem, hπ⟩
          · have : r = { row := d, createdAt := t, updatedAt := t } := by simpa using hmem
            rw [this]
      · simp only [hπ, if_false]
        by_cases hd : memPlate s d.plate = true
        · rw [upsertOne_of_memPlate hd] at hrec
          obtain ⟨r0, hr0, hstep⟩ := List.mem_map.mp hrec
          by_cases h0 : (r0.row.plate == d.plate) = true
          · exfalso
            apply hπ
            rw [← hstep]
            simp [stepRecord, h0, beq_self_eq_true]
          · have : r = r0 := by
              rw [← hstep]
              simp [stepRecord, h0]
            rw [this]
            exact hr0
        · unfold upsertOne at hrec
          rw [if_neg hd] at hrec
          rcases List.mem_append.mp hrec with hmem | hmem
          · exact hmem
          · exfalso
            apply hπ
            have : r = { row := d, createdAt := t, updatedAt := t } := by simpa using hmem
            rw [this]
            exact beq_self_eq_true d.plate

/-! ## Claim theorems -/

/-- C2: applying the same batch twice in upsert mode (conflict key `plate`)
leaves the store exactly as after one application up to refreshing
`updatedAt` on the records matched by the batch; in particular the final
record count and all field values agree with a single application. -/
theorem upsert_idempotent (t1 t2 : Nat) (s : Store) (batch : List DriverRow) :
    upsertBatch t2 (upsertBatch t1 s batch) batch
      = (upsertBatch t1 s batch).map (fun r =>
          if batch.any (fun d => r.row.plate == d.plate)
          then { row := r.row, createdAt := r.createdAt, updatedAt := t2 } else r) ∧
    (upsertBatch t2 (upsertBatch t1 s batch) batch).map (fun r => r.row)
      = (upsertBatch t1 s batch).map (fun r => r.row) ∧
    (upsertBatch t2 (upsertBatch t1 s batch) batch).length
      = (upsertBatch t1 s batch).length := by
  have hsat : ∀ d ∈ batch, memPlate (upsertBatch t1 s batch) d.plate = true := by
    intro d hd
    rw [memPlate_upsertBatch]
    have hany : batch.any (fun x => x.plate == d.plate) = true :=
      List.any_eq_true.mpr ⟨d, hd, beq_self_eq_true d.plate⟩
    simp [hany]
  have hD := upsertBatch_saturated t2 batch (upsertBatch t1 s batch) hsat
  have key : ∀ r ∈ upsertBatch t1 s batch,
      batch.foldl (stepRecord t2) r =
        (if batch.any (fun d => r.row.plate == d.plate)
         then { row := r.row, createdAt := r.createdAt, updatedAt := t2 } else r) := by
    intro r hr
    rw [foldl_stepRecord]
    have hrow := row_of_upsertBatch t1 batch s r hr
    cases hlm : lastMatch batch r.row.plate with
    | none =>
      rw [hlm] at hrow
      have hany : batch.any (fun d => r.row.plate == d.plate) = false :=
        (lastMatch_none_iff batch r.row.plate).mp hlm
      simp [hany]
    | some d =>
      rw [hlm] at hrow
      have hrowd : r.row = d := by simpa using hrow
      have hne : lastMatch batch r.row.plate ≠ none := by simp [hlm]
      have hany : batch.any (fun x => r.row.plate == x.plate) = true := by
        cases hb : batch.any (fun x => r.row.plate == x.plate) with
        | true => rfl
        | false => exact absurd ((lastMatch_none_iff batch r.row.plate).mpr hb) hne
      rw [if_pos hany, hrowd]
  have hmain : upsertBatch t2 (upsertBatch t1 s batch) batch
      = (upsertBatch t1 s batch).map (fun r =>
          if batch.any (fun d => r.row.plate == d.plate)
          then { row := r.row, createdAt := r.createdAt, updatedAt := t2 } else r) := by
    rw [hD]
    exact List.map_congr_left key
  refine ⟨hmain, ?_, ?_⟩
  · rw [hmain, List.map_map]
    congr 1
    funext r
    by_cases hc : batch.any (fun d => r.row.plate == d.plate) = true
    · simp [Function.comp, hc]
    · simp only [Bool.not_eq_true] at hc
      simp [Function.comp, hc]
  · rw [hmain, List.length_map]

theorem upsertBatch_new_plates (t : Nat) :
    ∀ (batch : List DriverRow) (s : Store),
      (batch.map (fun d => d.plate)).Nodup →
      (∀ d ∈ batch, memPlate s d.plate = false) →
      (upsertBatch t s batch).map (fun r => r.row) = s.map (fun r => r.row) ++ batch := by
  intro batch
  induction batch with
  | nil =>
    intro s _ _
    simp [upsertBatch]
  | cons d rest ih =>
    intro s hnodup hdisj
    have hmem : memPlate s d.plate = false := hdisj d (List.mem_cons_self d rest)
    have hstep : upsertOne t s d = s ++ [{ row := d, createdAt := t, updatedAt := t }] := by
      unfold upsertOne
      simp [hmem]
    have h1 : upsertBatch t s (d :: rest) = upsertBatch t (upsertOne t s d) rest := by
      simp [upsertBatch]
    have hnodup2 : (rest.map (fun d => d.plate)).Nodup :=
      (List.nodup_cons.mp (by simpa using hnodup)).2
    have hhead : d.plate ∉ rest.map (fun d => d.plate) :=
      (List.nodup_cons.mp (by simpa using hnodup)).1
    have hdisj2 : ∀ x ∈ rest,
        memPlate (s ++ [{ row := d, createdAt := t, updatedAt := t }]) x.plate = false := by
      intro x hx
      unfold memPlate
      rw [List.any_append]
      have hxs : memPlate s x.plate = false := hdisj x (List.mem_cons_of_mem d hx)
      have hdx : (d.plate == x.plate) = false := by
        rw [beq_eq_false_iff_ne]
        intro hcontra
        exact hhead (hcontra ▸ List.mem_map_of_mem (fun d => d.plate) hx)
      unfold memPlate at hxs
      simp [hxs, hdx]
    rw [h1, hstep, ih _ hnodup2 hdisj2]
    simp

/-- C1 (amended): for every prior store contents and every upload batch whose
valid subset is non-empty and carries pairwise distinct plates, applying the
batch in replace mode leaves the store's records equal to exactly the valid
subset of the submitted batch — every previously existing record is deleted,
every valid batch row is present, and no other record exists.  (When the
valid subset repeats a plate, the plate-keyed upsert keeps only the last row
with that plate — see the counterexample.) -/
theorem replace_yields_valid_subset (t : Nat) (rows : List RawRow) (fileName : Str)
    (userId : Option Str) (st : UploadState)
    (hne : parseFile rows ≠ [])
    (hnd : ((parseFile rows).map (fun d => d.plate)).Nodup) :
    ((handleUpload t UploadMode.replace rows fileName userId st).2.roster).map
        (fun r => r.row)
      = parseFile rows := by
  have hlen : ¬ (parseFile rows).length = 0 := by
    simpa [List.length_eq_zero] using hne
  have happ := upsertBatch_new_plates t (parseFile rows) [] hnd (fun d _ => rfl)
  simp only [handleUpload, hlen, if_false, deleteAll]
  simpa using happ

/-- Counterexample for C1 as stated: a batch with two valid rows sharing one
plate.  After `replace`, the store holds a single record, so the first valid
row of the batch is absent from the final record set. -/
theorem replace_duplicate_plate_counterexample :
    (parseFile
        [ [ (chars "plate", some (chars "AAA111")), (chars "id", some (chars "1"))
          , (chars "name", some (chars "Ann")), (chars "captain", some (chars "C")) ]
        , [ (chars "plate", some (chars "AAA111")), (chars "id", some (chars "2"))
          , (chars "name", some (chars "Bob")), (chars "captain", some (chars "C")) ] ]).length
      = 2 ∧
    ((handleUpload 0 UploadMode.replace
        [ [ (chars "plate", some (chars "AAA111")), (chars "id", some (chars "1"))
          , (chars "name", some (chars "Ann")), (chars "captain", some (chars "C")) ]
        , [ (chars "plate", some (chars "AAA111")), (chars "id", some (chars "2"))
          , (chars "name", some (chars "Bob")), (chars "captain", some (chars "C")) ] ]
        (chars "roster.xlsx") none { roster := [], audits := [] }).2.roster).length = 1 ∧
    ({ plate := chars "AAA111", employee_id := chars "1", name := chars "Ann"
     , captain := chars "C", phone := none, telegram_phone := none
     , schedule := none, rest_day := none, status := chars "active" } : DriverRow)
      ∈ parseFile
        [ [ (chars "plate", some (chars "AAA111")), (chars "id", some (chars "1"))
          , (chars "name", some (chars "Ann")), (chars "captain", some (chars "C")) ]
        , [ (chars "plate", some (chars "AAA111")), (chars "id", some (chars "2"))
          , (chars "name", some (chars "Bob")), (chars "captain", some (chars "C")) ] ] ∧
    ({ plate := chars "AAA111", employee_id := chars "1", name := chars "Ann"
     , captain := chars "C", phone := none, telegram_phone := none
     , schedule := none, rest_day := none, status := chars "active" } : DriverRow)
      ∉ ((handleUpload 0 UploadMode.replace
        [ [ (chars "plate", some (chars "AAA111")), (chars "id", some (chars "1"))
          , (chars "name", some (chars "Ann")), (chars "captain", some (chars "C")) ]
        , [ (chars "plate", some (chars "AAA111")), (chars "id", some (chars "2"))
          , (chars "name", some (chars "Bob")), (chars "captain", some (chars "C")) ] ]
        (chars "roster.xlsx") none { roster := [], audits := [] }).2.roster).map
          (fun r => r.row) := by
  refine ⟨?_, ?_, ?_, ?_⟩ <;> decide

/-- Witness for C1 at a two-row upload with distinct plates over a non-empty
prior store. -/
theorem replace_yields_valid_subset_witness :
    (parseFile
        [ [ (chars "plate", some (chars "AAA111")), (chars "id", some (chars "1"))
          , (chars "name", some (chars "Ann")), (chars "captain", some (chars "C")) ]
        , [ (chars "plate", some (chars "BBB222")), (chars "id", some (chars "2"))
          , (chars "name", some (chars "Bob")), (chars "captain", some (chars "C")) ] ] ≠ []) ∧
    ((handleUpload 7 UploadMode.replace
        [ [ (chars "plate", some (chars "AAA111")), (chars "id", some (chars "1"))
          , (chars "name", some (chars "Ann")), (chars "captain", some (chars "C")) ]
        , [ (chars "plate", some (chars "BBB222")), (chars "id", some (chars "2"))
          , (chars "name", some (chars "Bob")), (chars "captain", some (chars "C")) ] ]
        (chars "roster.xlsx") none
        { roster := [ { row := { plate := chars "OLD999", employee_id := chars "9"
                               , name := chars "Old", captain := chars "X"
                               , phone := none, telegram_phone := none
                               , schedule := none, rest_day := none
                               , status := chars "active" }
                      , createdAt := 0, updatedAt := 0 } ]
        , audits := [] }).2.roster).map
        (fun r => r.row)
      = parseFile
        [ [ (chars "plate", some (chars "AAA111")), (chars "id", some (chars "1"))
          , (chars "name", some (chars "Ann")), (chars "captain", some (chars "C")) ]
        , [ (chars "plate", some (chars "BBB222")), (chars "id", some (chars "2"))
          , (chars "name", some (chars "Bob")), (chars "captain", some (chars "C")) ] ] :=
  ⟨by decide,
   replace_yields_valid_subset 7 _ (chars "roster.xlsx") none _ (by decide) (by decide)⟩

/-- C6: when the parsed batch has an empty valid subset, the upload reports
the no-valid-records error and performs no mutation at all — the roster and
the audit log are returned untouched — in either upload mode. -/
theorem upload_no_valid_records (t : Nat) (mode : UploadMode) (rows : List RawRow)
    (fileName : Str) (userId : Option Str) (st : UploadState)
    (h : parseFile rows = []) :
    handleUpload t mode rows fileName userId st = (UploadOutcome.noValidRecords, st) := by
  simp [handleUpload, h]

/-- Witness for C6: a batch whose single row lacks a plate, in both modes. -/
theorem upload_no_valid_records_witness :
    (parseFile [ [ (chars "name", some (chars "Bob")) ] ] = []) ∧
    handleUpload 3 UploadMode.upsert [ [ (chars "name", some (chars "Bob")) ] ]
        (chars "roster.xlsx") none { roster := [], audits := [] }
      = (UploadOutcome.noValidRecords, { roster := [], audits := [] }) ∧
    handleUpload 3 UploadMode.replace [ [ (chars "name", some (chars "Bob")) ] ]
        (chars "roster.xlsx") none { roster := [], audits := [] }
      = (UploadOutcome.noValidRecords, { roster := [], audits := [] }) :=
  ⟨by decide,
   upload_no_valid_records 3 UploadMode.upsert _ (chars "roster.xlsx") none _ (by decide),
   upload_no_valid_records 3 UploadMode.replace _ (chars "roster.xlsx") none _ (by decide)⟩

/-- C4 (amended): the parsing stage resolves only the valid subset of the
parsed rows, and the preview shows the first 20 rows of that same valid
subset — every previewed row passes the four-field validity check, so
invalid parsed rows are not available for preview. -/
theorem preview_only_valid (rows : List RawRow) (d : DriverRow)
    (hd : d ∈ previewData rows) :
    d ∈ parseFile rows ∧ validDriver d = true := by
  have h1 : d ∈ parseFile rows := List.take_subset 20 (parseFile rows) hd
  exact ⟨h1, (List.mem_filter.mp h1).2⟩

/-- Counterexample for C4 as stated: of two parsed rows — one valid, one
invalid (missing employee id and captain) — only the valid one is resolved
by the parsing stage and shown in the preview; the invalid parsed draft is
not available. -/
theorem preview_misses_invalid :
    (parseRows
        [ [ (chars "plate", some (chars "AAA111")), (chars "id", some (chars "1"))
          , (chars "name", some (chars "Ann")), (chars "captain", some (chars "C")) ]
        , [ (chars "plate", some (chars "BBB222")), (chars "name", some (chars "Bob")) ] ]).length
      = 2 ∧
    ({ plate := chars "BBB222", employee_id := [], name := chars "Bob"
     , captain := [], phone := none, telegram_phone := none
     , schedule := none, rest_day := none, status := chars "active" } : DriverRow)
      ∈ parseRows
        [ [ (chars "plate", some (chars "AAA111")), (chars "id", some (chars "1"))
          , (chars "name", some (chars "Ann")), (chars "captain", some (chars "C")) ]
        , [ (chars "plate", some (chars "BBB222")), (chars "name", some (chars "Bob")) ] ] ∧
    previewData
        [ [ (chars "plate", some (chars "AAA111")), (chars "id", some (chars "1"))
          , (chars "name", some (chars "Ann")), (chars "captain", some (chars "C")) ]
        , [ (chars "plate", some (chars "BBB222")), (chars "name", some (chars "Bob")) ] ]
      = [ { plate := chars "AAA111", employee_id := chars "1", name := chars "Ann"
          , captain := chars "C", phone := none, telegram_phone := none
          , schedule := none, rest_day := none, status := chars "active" } ] ∧
    ({ plate := chars "BBB222", employee_id := [], name := chars "Bob"
     , captain := [], phone := none, telegram_phone := none
     , schedule := none, rest_day := none, status := chars "active" } : DriverRow)
      ∉ previewData
        [ [ (chars "plate", some (chars "AAA111")), (chars "id", some (chars "1"))
          , (chars "name", some (chars "Ann")), (chars "captain", some (chars "C")) ]
        , [ (chars "plate", some (chars "BBB222")), (chars "name", some (chars "Bob")) ] ] := by
  refine ⟨?_, ?_, ?_, ?_⟩ <;> decide

/-- Witness for C4 at a concrete upload containing one valid row. -/
theorem preview_only_valid_witness :
    (({ plate := chars "AAA111", employee_id := chars "1", name := chars "Ann"
      , captain := chars "C", phone := none, telegram_phone := none
      , schedule := none, rest_day := none, status := chars "active" } : DriverRow)
      ∈ previewData
        [ [ (chars "plate", some (chars "AAA111")), (chars "id", some (chars "1"))
          , (chars "name", some (chars "Ann")), (chars "captain", some (chars "C")) ] ]) ∧
    (({ plate := chars "AAA111", employee_id := chars "1", name := chars "Ann"
      , captain := chars "C", phone := none, telegram_phone := none
      , schedule := none, rest_day := none, status := chars "active" } : DriverRow)
      ∈ parseFile
        [ [ (chars "plate", some (chars "AAA111")), (chars "id", some (chars "1"))
          , (chars "name", some (chars "Ann")), (chars "captain", some (chars "C")) ] ] ∧
      validDriver
        { plate := chars "AAA111", employee_id := chars "1", name := chars "Ann"
        , captain := chars "C", phone := none, telegram_phone := none
        , schedule := none, rest_day := none, status := chars "active" } = true) :=
  ⟨by decide, preview_only_valid _ _ (by decide)⟩

/-- C9: the normalizer returns `null` exactly for absent or empty input;
every other input — including strings with no digits at all — yields a
non-null result that begins with a plus sign. -/
theorem normalize_null_only_empty :
    normalizePhoneToE164 none = none ∧
    normalizePhoneToE164 (some []) = none ∧
    ∀ p : Str, p ≠ [] →
      ∃ y, normalizePhoneToE164 (some p) = some y ∧ y.take 1 = ['+'] := by
  refine ⟨rfl, by simp [normalizePhoneToE164], ?_⟩
  intro p hp
  obtain ⟨y, hy, h1, -⟩ := normalize_some hp
  exact ⟨y, hy, h1⟩

/-- Witness for C9 at a whitespace-only input, which contains no digits. -/
theorem normalize_null_only_empty_witness :
    (chars "   " ≠ []) ∧
    ∃ y, normalizePhoneToE164 (some (chars "   ")) = some y ∧ y.take 1 = ['+'] :=
  ⟨by decide, normalize_null_only_empty.2.2 (chars "   ") (by decide)⟩

/-- C5 (amended): an 11-digit input starting with `0` maps to `+63` followed
by its last ten digits; a 10-digit input starting with `9` maps to `+63`
followed by those digits; normalization is idempotent on every input; and a
`+63`-prefixed input is returned unchanged provided it contains only digits
and plus signs (in general a `+63`-prefixed input is only cleaned, not
returned verbatim — see the counterexample). -/
theorem normalize_formats_and_idempotent :
    (∀ p : Str, (∀ c ∈ p, c.isDigit = true) → p.length = 11 → p.take 1 = ['0'] →
      normalizePhoneToE164 (some p) = some (chars "+63" ++ p.drop 1)) ∧
    (∀ p : Str, (∀ c ∈ p, c.isDigit = true) → p.length = 10 → p.take 1 = ['9'] →
      normalizePhoneToE164 (some p) = some (chars "+63" ++ p)) ∧
    (∀ x : Option Str,
      normalizePhoneToE164 (normalizePhoneToE164 x) = normalizePhoneToE164 x) ∧
    (∀ p : Str, (∀ c ∈ p, phonePred c = true) → strStartsWith p (chars "+63") = true →
      normalizePhoneToE164 (some p) = some p) := by
  have hdigit : ∀ {p : Str}, (∀ c ∈ p, c.isDigit = true) → cleanPhone p = p := by
    intro p h
    exact cleanPhone_eq_self (fun c hc => by simp [phonePred, h c hc])
  refine ⟨?_, ?_, ?_, ?_⟩
  · intro p hdig hlen h0
    obtain ⟨t, rfl⟩ := take_one_cons h0
    have hclean : cleanPhone ('0' :: t) = '0' :: t := hdigit hdig
    simp only [normalizePhoneToE164]
    rw [if_neg (List.cons_ne_nil _ _)]
    simp only [hclean]
    have h1 : strStartsWith ('0' :: t) (chars "+63") = false := by
      simp [strStartsWith, chars, List.take_succ_cons]
    have h2 : strStartsWith ('0' :: t) (chars "63") = false := by
      simp [strStartsWith, chars, List.take_succ_cons]
    have h3 : strStartsWith ('0' :: t) (chars "0") = true := by
      simp [strStartsWith, chars, List.take_succ_cons]
    simp [h1, h2, h3, hlen]
  · intro p hdig hlen h9
    obtain ⟨t, rfl⟩ := take_one_cons h9
    have hclean : cleanPhone ('9' :: t) = '9' :: t := hdigit hdig
    simp only [normalizePhoneToE164]
    rw [if_neg (List.cons_ne_nil _ _)]
    simp only [hclean]
    have h1 : strStartsWith ('9' :: t) (chars "+63") = false := by
      simp [strStartsWith, chars, List.take_succ_cons]
    have h2 : strStartsWith ('9' :: t) (chars "63") = false := by
      simp [strStartsWith, chars, List.take_succ_cons]
    have h3 : strStartsWith ('9' :: t) (chars "0") = false := by
      simp [strStartsWith, chars, List.take_succ_cons]
    have h4 : strStartsWith ('9' :: t) (chars "9") = true := by
      simp [strStartsWith, chars, List.take_succ_cons]
    simp [h1, h2, h3, h4, hlen]
  · intro x
    match x with
    | none => rfl
    | some p =>
      by_cases hp : p = []
      · subst hp
        simp [normalizePhoneToE164]
      · obtain ⟨y, hy, h1, hmem⟩ := normalize_some hp
        rw [hy]
        exact normalize_clean_plus hmem h1

  · intro p hmem hpre
    have hne : p ≠ [] := by
      intro h
      subst h
      simp [strStartsWith, chars] at hpre
    have hclean : cleanPhone p = p := cleanPhone_eq_self hmem
    simp only [normalizePhoneToE164]
    rw [if_neg hne]
    simp [hclean, hpre]

/-- Counterexample for C5 as stated: a `+63`-prefixed input carrying
formatting characters is not returned unchanged — normalization strips the
spaces. -/
theorem normalize_plus63_changes_input :
    normalizePhoneToE164 (some (chars "+63 917 123 4567")) =
      some (chars "+639171234567") ∧
    chars "+639171234567" ≠ chars "+63 917 123 4567" := by
  constructor
  · decide
  · decide

/-- Witness for C5 at the two digit formats of the numbering plan. -/
theorem normalize_formats_witness :
    normalizePhoneToE164 (some (chars "09171234567")) =
      some (chars "+63" ++ (chars "09171234567").drop 1) ∧
    normalizePhoneToE164 (some (chars "9171234567")) =
      some (chars "+63" ++ chars "9171234567") :=
  ⟨normalize_formats_and_idempotent.1 (chars "09171234567")
      (by decide) (by decide) (by decide),
   normalize_formats_and_idempotent.2.1 (chars "9171234567")
      (by decide) (by decide) (by decide)⟩

theorem takeWhile_digit_append_space (r : Str) :
    ∀ x : Str, (List.takeWhile (fun c => c.isDigit) (x ++ ' ' :: r)).length ≤ x.length := by
  intro x
  induction x with
  | nil => simp [List.takeWhile]
  | cons a t ih =>
    by_cases ha : a.isDigit = true
    · simp only [List.cons_append, List.takeWhile, ha]
      simpa using ih
    · simp only [List.cons_append, List.takeWhile]
      rw [Bool.not_eq_true] at ha
      simp [ha]

/-- Shape of the mask on an input whose canonical form is a 13-character
`+63` number: the fixed literal followed by the canonical form's last four
characters. -/
theorem mask_plus63 {p e : Str} (hn : normalizePhoneToE164 (some p) = some e)
    (hpre : strStartsWith e (chars "+63") = true) (h13 : e.length = 13) :
    maskPhoneNumber (some p) = chars "+63 9** *** " ++ e.drop 9 := by
  have hp : p ≠ [] := by
    intro h
    subst h
    simp [normalizePhoneToE164] at hn
  simp only [maskPhoneNumber]
  rw [if_neg hp, hn]
  simp [hpre, h13]

/-- C7: on any input whose canonical form is a 13-character `+63` number the
mask is exactly the pattern `+63 9** *** ` followed by the canonical form's
last four digits; the mask never ends in more than four contiguous digits,
and it is entirely determined by those last four characters, so none of the
middle digits of the original number is revealed. -/
theorem mask_reveals_only_last4 (p e : Str)
    (hn : normalizePhoneToE164 (some p) = some e)
    (hpre : strStartsWith e (chars "+63") = true) (h13 : e.length = 13) :
    maskPhoneNumber (some p) = chars "+63 9** *** " ++ e.drop 9 ∧
    trailingDigits (maskPhoneNumber (some p)) ≤ 4 ∧
    (∀ q f : Str, normalizePhoneToE164 (some q) = some f →
      strStartsWith f (chars "+63") = true → f.length = 13 → f.drop 9 = e.drop 9 →
      maskPhoneNumber (some q) = maskPhoneNumber (some p)) := by
  have hmask := mask_plus63 hn hpre h13
  refine ⟨hmask, ?_, ?_⟩
  · rw [hmask]
    unfold trailingDigits
    rw [List.reverse_append]
    have hrev : (chars "+63 9** *** ").reverse = ' ' :: chars "*** **9 36+" := by decide
    rw [hrev]
    have hlen4 : (e.drop 9).reverse.length = 4 := by
      rw [List.length_reverse, List.length_drop, h13]
    calc (List.takeWhile (fun c => c.isDigit)
            ((e.drop 9).reverse ++ ' ' :: chars "*** **9 36+")).length
        ≤ (e.drop 9).reverse.length := takeWhile_digit_append_space _ _
      _ = 4 := hlen4
  · intro q f hq hfpre hf13 hlast
    rw [mask_plus63 hq hfpre hf13, hmask, hlast]

/-- Witness for C7 at a concrete mobile number. -/
theorem mask_reveals_only_last4_witness :
    normalizePhoneToE164 (some (chars "09171234567")) = some (chars "+639171234567") ∧
    maskPhoneNumber (some (chars "09171234567")) =
      chars "+63 9** *** " ++ (chars "+639171234567").drop 9 ∧
    trailingDigits (maskPhoneNumber (some (chars "09171234567"))) ≤ 4 :=
  ⟨by decide,
   (mask_reveals_only_last4 (chars "09171234567") (chars "+639171234567")
      (by decide) (by decide) (by decide)).1,
   (mask_reveals_only_last4 (chars "09171234567") (chars "+639171234567")
      (by decide) (by decide) (by decide)).2.1⟩

theorem filterStep (u v m r : Bool) :
    (if (u && v && !m) = true then false else r) = ((!(u && v) || m) && r) := by
  cases u <;> cases v <;> cases m <;> cases r <;> rfl

theorem lastStep (w sm : Bool) : (if w = true then sm else true) = (!w || sm) := by
  cases w <;> cases sm <;> rfl

/-- Pointwise agreement of the transcribed filter predicate with the
specification's keep predicate. -/
theorem keepDriver_eq_specKeep (filters : Filters) (searchQuery : Str) (d : Driver) :
    keepDriver filters searchQuery d = specKeep filters searchQuery d := by
  simp only [keepDriver, specKeep, hasConstraint, ne_eq, decide_not]
  rw [filterStep, filterStep, filterStep, filterStep, lastStep]
  rw [Bool.eq_iff_iff]
  simp only [Bool.and_eq_true, Bool.or_eq_true, Bool.not_eq_true', Bool.not_eq_true,
    decide_eq_true_eq, decide_eq_false_iff_not, Bool.not_not]
  tauto

/-- C3: a record survives the view filter exactly when every concretely
constrained filter field matches it exactly (case-sensitive, not substring)
and, for a non-empty query, the lowercased query occurs in one of the nine
searched fields lowercased (absent fields never match, and the total
predicate never throws); the survivors keep their input order. -/
theorem filteredDrivers_eq_spec (drivers : List Driver) (filters : Filters)
    (searchQuery : Str) :
    filteredDrivers drivers filters searchQuery
      = drivers.filter (specKeep filters searchQuery) ∧
    (filteredDrivers drivers filters searchQuery).Sublist drivers := by
  constructor
  · exact List.filter_congr (fun d _ => keepDriver_eq_specKeep filters searchQuery d)
  · exact List.filter_sublist drivers

theorem vcfBatchesGo_nil {total i : Nat} (h : ¬ i < total) : vcfBatchesGo total i = [] := by
  rw [vcfBatchesGo]
  simp [h]

theorem vcfBatchesGo_join (ps : List Driver) :
    ∀ (k i : Nat), ps.length - i ≤ k →
      ((vcfBatchesGo ps.length i).map (vcfSlice ps)).flatten = ps.drop i := by
  intro k
  induction k with
  | zero =>
    intro i hi
    have h : ¬ i < ps.length := by omega
    rw [vcfBatchesGo_nil h]
    simp [List.drop_eq_nil_of_le (by omega : ps.length ≤ i)]
  | succ k ih =>
    intro i hi
    by_cases h : i < ps.length
    · rw [vcfBatchesGo]
      simp only [h, if_true, List.map_cons, List.flatten_cons]
      rw [ih (i + VCF_BATCH_SIZE) (by simp only [VCF_BATCH_SIZE]; omega)]
      unfold vcfSlice
      rcases Nat.lt_or_ge (i + VCF_BATCH_SIZE) ps.length with hc | hc
      · have hmin : min (i + VCF_BATCH_SIZE) ps.length = i + VCF_BATCH_SIZE :=
          Nat.min_eq_left (Nat.le_of_lt hc)
        rw [hmin]
        have hdrop : ps.drop (i + VCF_BATCH_SIZE) = (ps.drop i).drop VCF_BATCH_SIZE := by
          rw [List.drop_drop, Nat.add_comm]
        rw [hdrop]
        have htake : i + VCF_BATCH_SIZE - i = VCF_BATCH_SIZE := by omega
        rw [htake, List.take_append_drop]
      · have hmin : min (i + VCF_BATCH_SIZE) ps.length = ps.length :=
          Nat.min_eq_right hc
        rw [hmin]
        have hdrop : ps.drop (i + VCF_BATCH_SIZE) = [] :=
          List.drop_eq_nil_of_le (by omega)
        rw [hdrop, List.append_nil]
        have hlen : (ps.drop i).length = ps.length - i := List.length_drop i ps
        rw [← hlen, List.take_length]
    · rw [vcfBatchesGo_nil h]
      simp [List.drop_eq_nil_of_le (by omega : ps.length ≤ i)]

theorem vcfBatchesGo_bounds :
    ∀ (k total i : Nat), total - i ≤ k →
      ∀ b ∈ vcfBatchesGo total i, b.1 < total ∧ b.2 = min (b.1 + VCF_BATCH_SIZE) total := by
  intro k
  induction k with
  | zero =>
    intro total i hi
    rw [vcfBatchesGo_nil (by omega)]
    simp
  | succ k ih =>
    intro total i hi
    by_cases h : i < total
    · rw [vcfBatchesGo]
      simp only [h, if_true]
      intro b hb
      rcases List.mem_cons.mp hb with rfl | hb
      · exact ⟨h, rfl⟩
      · exact ih total (i + VCF_BATCH_SIZE) (by simp only [VCF_BATCH_SIZE]; omega) b hb
    · rw [vcfBatchesGo_nil h]
      simp

theorem vcfBatchesGo_dropLast :
    ∀ (k total i : Nat), total - i ≤ k →
      ∀ b ∈ (vcfBatchesGo total i).dropLast, b.2 - b.1 = VCF_BATCH_SIZE := by
  intro k
  induction k with
  | zero =>
    intro total i hi
    rw [vcfBatchesGo_nil (by omega)]
    simp
  | succ k ih =>
    intro total i hi
    by_cases h : i < total
    · rw [vcfBatchesGo]
      simp only [h, if_true]
      by_cases hrest : i + VCF_BATCH_SIZE < total
      · have hne : vcfBatchesGo total (i + VCF_BATCH_SIZE) ≠ [] := by
          rw [vcfBatchesGo]
          simp [hrest]
        rw [List.dropLast_cons_of_ne_nil hne]
        intro b hb
        rcases List.mem_cons.mp hb with rfl | hb
        · have : min (i + VCF_BATCH_SIZE) total = i + VCF_BATCH_SIZE :=
            Nat.min_eq_left (Nat.le_of_lt hrest)
          simp [this]
        · exact ih total (i + VCF_BATCH_SIZE) (by simp only [VCF_BATCH_SIZE]; omega) b hb
      · rw [vcfBatchesGo_nil hrest]
        simp
    · rw [vcfBatchesGo_nil h]
      simp

/-- C8: the contact-card export batching covers the drivers-with-phone list
exactly, in order, in consecutive chunks; every chunk except the last spans
exactly `VCF_BATCH_SIZE` = 100 cards, every chunk is non-empty and spans at
most 100 cards, and 250 drivers-with-phone yield exactly the three batch
sizes 100, 100 and 50. -/
theorem vcf_export_batches (drivers : List Driver) :
    (((vcfBatches (driversWithPhone drivers).length).map
        (vcfSlice (driversWithPhone drivers))).flatten = driversWithPhone drivers) ∧
    (∀ b ∈ (vcfBatches (driversWithPhone drivers).length).dropLast,
        b.2 - b.1 = VCF_BATCH_SIZE) ∧
    (∀ b ∈ vcfBatches (driversWithPhone drivers).length,
        0 < b.2 - b.1 ∧ b.2 - b.1 ≤ VCF_BATCH_SIZE) ∧
    ((vcfBatches 250).map (fun b => b.2 - b.1) = [100, 100, 50]) := by
  refine ⟨?_, ?_, ?_, ?_⟩
  · simpa using vcfBatchesGo_join (driversWithPhone drivers) (driversWithPhone drivers).length 0
      (by omega)
  · exact vcfBatchesGo_dropLast (driversWithPhone drivers).length _ 0 (by omega)
  · intro b hb
    obtain ⟨h1, h2⟩ := vcfBatchesGo_bounds (driversWithPhone drivers).length _ 0 (by omega) b hb
    constructor
    · simp only [VCF_BATCH_SIZE] at h2
      omega
    · simp only [VCF_BATCH_SIZE] at h2 ⊢
      omega
  · simp [vcfBatches, vcfBatchesGo, VCF_BATCH_SIZE]

/-- Witness for C8: the partition equation at a concrete one-driver roster. -/
theorem vcf_export_batches_witness :
    ((vcfBatches (driversWithPhone
        [ { plate := chars "AAA111", employee_id := chars "1", name := chars "Ann"
          , captain := chars "C", phone := some (chars "09171234567")
          , telegram_phone := none, schedule := none, rest_day := none
          , status := none } ]).length).map
      (vcfSlice (driversWithPhone
        [ { plate := chars "AAA111", employee_id := chars "1", name := chars "Ann"
          , captain := chars "C", phone := some (chars "09171234567")
          , telegram_phone := none, schedule := none, rest_day := none
          , status := none } ]))).flatten
      = driversWithPhone
        [ { plate := chars "AAA111", employee_id := chars "1", name := chars "Ann"
          , captain := chars "C", phone := some (chars "09171234567")
          , telegram_phone := none, schedule := none, rest_day := none
          , status := none } ] :=
  (vcf_export_batches _).1

/-- C10: for every column list and every pair of in-range indices, the
drag-and-drop reorder `moveColumn` produces a permutation of the previous
column list — no column is lost and no column is duplicated. -/
theorem moveColumn_perm (cols : List ColumnDef) (fromIndex toIndex : Nat)
    (hf : fromIndex < cols.length) (ht : toIndex < cols.length) :
    (moveColumn cols fromIndex toIndex).Perm cols := by
  have hget : cols.get? fromIndex = some (cols.get ⟨fromIndex, hf⟩) := List.get?_eq_get hf
  unfold moveColumn
  rw [hget]
  have hlen : toIndex ≤ (cols.eraseIdx fromIndex).length := by
    have := List.length_eraseIdx_add_one hf
    omega
  exact (perm_insertIdx _ _ _ hlen).trans (perm_cons_eraseIdx cols fromIndex hf).symm

/-- Witness for C10 at a concrete three-column list, moving index 0 to 2. -/
theorem moveColumn_perm_witness :
    (moveColumn
      [ { key := chars "plate", label := chars "PLATE", sortable := true }
      , { key := chars "name", label := chars "NAME", sortable := true }
      , { key := chars "status", label := chars "Status", sortable := true } ] 0 2).Perm
      [ { key := chars "plate", label := chars "PLATE", sortable := true }
      , { key := chars "name", label := chars "NAME", sortable := true }
      , { key := chars "status", label := chars "Status", sortable := true } ] :=
  moveColumn_perm _ 0 2 (by decide) (by decide)

end Roster
